import Mathlib

/-!
Verification of the BVP comparison script `HW11.PY`.

The script solves the boundary-value problem
  y″ + (x+1) y′ - 2 y = (1-x^2) e^(-x),  y(0) = 1, y(1) = 2
on [0,1] by three methods: shooting, finite differences, and a
variational (least-squares) fit of a cubic trial function.

Embedding conventions.
* Machine floats are modelled by exact rationals `ℚ`.
* `x ↦ exp (-x)` has no computable counterpart in `ℚ`; wherever the
  source calls `np.exp(-x)` the embedding takes an abstract function
  `ex : ℚ → ℚ` standing for that map.  None of the verified claims
  depends on the actual values of `exp`.
* The calls into scipy (`solve_ivp`, `root_scalar`, `minimize`) are
  delegated library calls; they are modelled by abstract parameters
  (an IVP sampler, a root finder, an optimizer result) constrained,
  where a claim needs it, by the tolerance contracts the spec states
  for them.
* `scipy.linalg.solve` computes the solution of the square linear
  system `A y = b`; the embedding `linsolve` returns that unique
  solution via the Cramer rule, exact over `ℚ`.
-/

namespace HW11

/-- Embedding of `np.arange(start, stop, step)` over `ℚ`: the
`⌈(stop - start)/step⌉` values `start, start + step, ...`
(the numpy length formula for a nonzero step; numpy raises on a zero
step, and no theorem below evaluates the model at `step = 0`). -/
def arangeQ (start stop step : ℚ) : List ℚ :=
  (List.range (Nat.ceil ((stop - start) / step))).map (fun (i : ℕ) => start + (i : ℚ) * step)

/-- The shared grid `np.arange(0, 1 + h, h)`, recomputed identically by
all three solver functions in the source. -/
def gridQ (h : ℚ) : List ℚ := arangeQ 0 (1 + h) h

/-- Embedding of `n = len(x)` in `finite_difference_method`. -/
def fdN (h : ℚ) : ℕ := (gridQ h).length

/-- Embedding of `x[i]` of the shared grid (`0` out of range). -/
def xQ (h : ℚ) (i : ℕ) : ℚ := (gridQ h).getD i 0

/-- The matrix `A` built by `finite_difference_method`: first the two
Dirichlet boundary rows (`A[0,0] = 1`, `A[-1,-1] = 1`, all other entries
of those rows left at `0`), then for each interior row `i` the central
difference coefficients
`A[i,i-1] = 1/h² + (xᵢ+1)/(2h)`, `A[i,i] = -2/h² - 2`,
`A[i,i+1] = 1/h² - (xᵢ+1)/(2h)`. -/
def fdA (h : ℚ) : Matrix (Fin (fdN h)) (Fin (fdN h)) ℚ :=
  Matrix.of fun i j =>
    if i.val = 0 then (if j.val = 0 then 1 else 0)
    else if i.val = fdN h - 1 then (if j.val = fdN h - 1 then 1 else 0)
    else if j.val + 1 = i.val then 1 / h ^ 2 + (xQ h i.val + 1) / (2 * h)
    else if j.val = i.val then -2 / h ^ 2 - 2
    else if j.val = i.val + 1 then 1 / h ^ 2 - (xQ h i.val + 1) / (2 * h)
    else 0

/-- The right-hand side `b` of `finite_difference_method`:
`b[0] = 1`, `b[-1] = 2` (assigned second, so it wins if the grid has a
single point), `b[i] = (1 - xᵢ²)·exp(-xᵢ)` at interior rows, with
`ex` standing for `x ↦ exp (-x)`. -/
def fdb (h : ℚ) (ex : ℚ → ℚ) : Fin (fdN h) → ℚ :=
  fun i =>
    if i.val = fdN h - 1 then 2
    else if i.val = 0 then 1
    else (1 - (xQ h i.val) ^ 2) * ex (xQ h i.val)

/-- Model of `scipy.linalg.solve`: the exact solution of the square system
`A y = b`, realized over `ℚ` by the Cramer rule (for singular `A` scipy
raises; this total model then returns the zero vector, a case no theorem
below relies on). -/
def linsolve {n : ℕ} (A : Matrix (Fin n) (Fin n) ℚ) (b : Fin n → ℚ) : Fin n → ℚ :=
  (A.det)⁻¹ • (A.cramer b)

/-- The solution vector `y = solve(A, b)` of `finite_difference_method`. -/
def fdY (h : ℚ) (ex : ℚ → ℚ) : Fin (fdN h) → ℚ := linsolve (fdA h) (fdb h ex)

/-- Embedding of `finite_difference_method(h)`: returns the pair `(x, y)`. -/
def finite_difference_method (ex : ℚ → ℚ) (h : ℚ) : List ℚ × List ℚ :=
  (gridQ h, List.ofFn (fdY h ex))

/-- Embedding of `ode_system(x, Y)`: the first-order system equivalent to the BVP,
`Y = (y, y′)`, returning `(y′, y″)` with
`y″ = -(x+1) y′ + 2 y + (1-x²) exp(-x)`. -/
def ode_system (ex : ℚ → ℚ) (x : ℚ) (Y : ℚ × ℚ) : ℚ × ℚ :=
  (Y.2, -(x + 1) * Y.2 + 2 * Y.1 + (1 - x ^ 2) * ex x)

/-- The local-error tolerances handed to `solve_ivp`. -/
structure IVPConfig where
  rtol : ℚ
  atol : ℚ

/-- The tolerance configuration `rtol=1e-8, atol=1e-8` that
`solve_shooting` passes to `solve_ivp`. -/
def shootingTol : IVPConfig :=
  { rtol := 1 / 10 ^ 8, atol := 1 / 10 ^ 8 }

/-- Model of the `t_eval` validation performed by
`scipy.integrate.solve_ivp` (library code outside this repository):
every requested sample point must lie within `t_span`, otherwise the
call raises a `ValueError` instead of returning a trajectory. -/
def tEvalInSpan (t0 tf : ℚ) (x_eval : List ℚ) : Bool :=
  x_eval.all (fun t => decide (t0 ≤ t) && decide (t ≤ tf))

/-- An abstract model of `scipy.integrate.solve_ivp` for a 2-dimensional
first-order system on a valid sample set (one where `tEvalInSpan`
holds; on an invalid one the real call raises, a case the theorems
below never exercise): given the right-hand side, the time span, the
initial state and the tolerance configuration, it yields the sampled
state as a function of the sample point. -/
def IVPSolver : Type :=
  (ℚ → ℚ × ℚ → ℚ × ℚ) → ℚ × ℚ → ℚ × ℚ → IVPConfig → ℚ → ℚ × ℚ

/-- Embedding of `solve_shooting(alpha, x_eval)`: integrates `ode_system` over
`[0, 1]` from the state `(1, alpha)` with `rtol = atol = 1e-8`, sampled
at the points of `x_eval` (the rows of `sol.y` transposed). -/
def solve_shooting (S : IVPSolver) (ex : ℚ → ℚ) (alpha : ℚ) (x_eval : List ℚ) :
    List (ℚ × ℚ) :=
  x_eval.map (S (ode_system ex) (0, 1) (1, alpha) shootingTol)

/-- Embedding of `boundary_residual(alpha) = sol.y[0, -1] - 2`: the sampled `y` at the
last evaluation point, minus the target `y(1) = 2` (`getD 0` models
the Python indexing, never exercised on an empty grid). -/
def boundary_residual (S : IVPSolver) (ex : ℚ → ℚ) (x_eval : List ℚ) (alpha : ℚ) : ℚ :=
  ((solve_shooting S ex alpha x_eval).map Prod.fst).getLast?.getD 0 - 2

/-- An abstract bracketing root finder standing for
`scipy.optimize.root_scalar(..., method=brentq)`: objective and the
two bracket ends. -/
def RootFinder : Type := (ℚ → ℚ) → ℚ → ℚ → ℚ

/-- Embedding of `shooting_method(h)`: builds the grid, runs the Brent root finder on
`boundary_residual` over the bracket `[-10, 10]` and integrates once
more at the root.  the Brent method raises — the fatal `NoRootInBracket`
of the spec — exactly when the residual has the same nonzero sign at
both bracket ends (its documented contract, modelled here as the guard);
the script installs no handler, so the error propagates. -/
def shooting_method (S : IVPSolver) (R : RootFinder) (ex : ℚ → ℚ) (h : ℚ) :
    Except String (List ℚ × List ℚ) :=
  let x_eval := gridQ h
  let resid := boundary_residual S ex x_eval
  if 0 < resid (-10) * resid 10 then
    Except.error "NoRootInBracket"
  else
    let best_alpha := R resid (-10) 10
    Except.ok (x_eval, (solve_shooting S ex best_alpha x_eval).map Prod.fst)

/-- Embedding of `trial(x, a, b, c) = 1 + a x + b x² + c x³`: the cubic trial family
of `variational_method` (the constant term builds `y(0) = 1` in). -/
def trial (x a b c : ℚ) : ℚ := 1 + a * x + b * x ^ 2 + c * x ^ 3

/-- Model of `np.trapz(y, x)`: the trapezoid rule
`∑ᵢ (x_{i+1} - x_i)·(y_i + y_{i+1})/2` over consecutive sample points. -/
def trapz (y x : List ℚ) : ℚ :=
  (List.zipWith (fun p q => (q.1 - p.1) * (p.2 + q.2) / 2) (x.zip y) ((x.zip y).tail)).sum

/-- The pointwise strong-form residual of the trial function, with the
hand-written derivatives of the source:
`r = d2y + (x+1)·dy - 2·y - (1-x²)·exp(-x)` where `y = trial(t,a,b,c)`,
`dy = a + 2bt + 3ct²`, `d2y = 2b + 6ct`. -/
def rRes (ex : ℚ → ℚ) (a b c t : ℚ) : ℚ :=
  (2 * b + 6 * c * t) + (t + 1) * (a + 2 * b * t + 3 * c * t ^ 2)
    - 2 * trial t a b c - (1 - t ^ 2) * ex t

/-- Embedding of `residual_squared(params) = np.trapz(r**2, x)`: the objective handed
to the minimizer. -/
def residual_squared (ex : ℚ → ℚ) (x : List ℚ) (p : ℚ × ℚ × ℚ) : ℚ :=
  trapz (x.map (fun t => (rRes ex p.1 p.2.1 p.2.2 t) ^ 2)) x

/-- The equality-constraint function of `cons`:
`p ↦ trial(1, *p) - 2`, required to vanish (`y(1) = 2`). -/
def consFun (p : ℚ × ℚ × ℚ) : ℚ := trial 1 p.1 p.2.1 p.2.2 - 2

/-- The result object of `scipy.optimize.minimize`: the solution point
and the convergence flag.  The source reads only `x`. -/
structure OptResult where
  x : ℚ × ℚ × ℚ
  success : Bool

/-- An abstract model of `scipy.optimize.minimize` with one equality
constraint: objective, initial guess, constraint function. `minimize`
returns an `OptResult` and raises no exception on non-convergence. -/
def Minimizer : Type :=
  ((ℚ × ℚ × ℚ) → ℚ) → ℚ × ℚ × ℚ → ((ℚ × ℚ × ℚ) → ℚ) → OptResult

/-- Embedding of `variational_method(h)`: minimizes `residual_squared` from the
initial guess `[0, 0, 0]` subject to the equality constraint, then
evaluates the trial at every grid point with the optimized parameters —
unconditionally: `res.success` is never consulted. -/
def variational_method (M : Minimizer) (ex : ℚ → ℚ) (h : ℚ) : List ℚ × List ℚ :=
  let x := gridQ h
  let res := M (residual_squared ex x) (0, 0, 0) consFun
  (x, x.map (fun t => trial t res.x.1 res.x.2.1 res.x.2.2))

/-- The module-level run: the three solvers in source order.  An
uncaught exception in `shooting_method` aborts the whole run. -/
def runAll (S : IVPSolver) (R : RootFinder) (M : Minimizer) (ex : ℚ → ℚ) (h : ℚ) :
    Except String ((List ℚ × List ℚ) × (List ℚ × List ℚ) × (List ℚ × List ℚ)) := do
  let shoot ← shooting_method S R ex h
  let fd := finite_difference_method ex h
  let var := variational_method M ex h
  pure (shoot, fd, var)

/-- The printed table: one row `(x_fd[i], y_shoot[i], y_fd[i], y_var[i])`
for each `i in range(len(x_fd))` (`getD 0` models Python indexing; the
alignment theorem shows the indices are always in bounds).  Nothing is
printed when `shooting_method` raises. -/
def mainTable (S : IVPSolver) (R : RootFinder) (M : Minimizer) (ex : ℚ → ℚ) (h : ℚ) :
    Except String (List (ℚ × ℚ × ℚ × ℚ)) := do
  let r ← runAll S R M ex h
  let ys := r.1.2
  let xfd := r.2.1.1
  let yfd := r.2.1.2
  let yv := r.2.2.2
  pure ((List.range xfd.length).map (fun i =>
    (xfd.getD i 0, ys.getD i 0, yfd.getD i 0, yv.getD i 0)))

theorem gridQ_eq (h : ℚ) :
    gridQ h = (List.range (Nat.ceil ((1 + h) / h))).map (fun (i : ℕ) => (i : ℚ) * h) := by
  simp [gridQ, arangeQ]

theorem gridQ_length (h : ℚ) : (gridQ h).length = Nat.ceil ((1 + h) / h) := by
  rw [gridQ_eq, List.length_map, List.length_range]

theorem gridQ_length_pos (h : ℚ) (h0 : 0 < h) : Nat.ceil ((1 + h) / h) = Nat.ceil (1 / h) + 1 := by
  have hh : (1 + h) / h = 1 / h + 1 := by field_simp
  rw [hh, Nat.ceil_add_one (by positivity)]

theorem gridQ_getD (h : ℚ) (i : ℕ) (hi : i < (gridQ h).length) :
    (gridQ h).getD i 0 = (i : ℚ) * h := by
  rw [gridQ_eq] at hi ⊢
  rw [List.length_map, List.length_range] at hi
  rw [List.getD_eq_getElem?_getD, List.getElem?_map]
  simp [List.getElem?_range, hi]

theorem gridQ_unit (k : ℕ) (hk : 0 < k) :
    gridQ (1 / (k : ℚ)) = (List.range (k + 1)).map (fun (i : ℕ) => (i : ℚ) / k) := by
  have hk0 : ((k : ℚ)) ≠ 0 := Nat.cast_ne_zero.mpr hk.ne'
  have hc : Nat.ceil ((1 + 1 / (k : ℚ)) / (1 / (k : ℚ))) = k + 1 := by
    have : (1 + 1 / (k : ℚ)) / (1 / (k : ℚ)) = ((k : ℚ) + 1) := by field_simp
    rw [this]
    rw [show ((k : ℚ) + 1) = ((k + 1 : ℕ) : ℚ) by push_cast; ring]
    exact Nat.ceil_natCast (k + 1)
  rw [gridQ_eq, hc]
  refine List.map_congr_left (fun i _ => ?_)
  field_simp

theorem gridQ_unit_length (k : ℕ) (hk : 0 < k) : (gridQ (1 / (k : ℚ))).length = k + 1 := by
  rw [gridQ_unit k hk, List.length_map, List.length_range]

theorem gridQ_unit_head (k : ℕ) (hk : 0 < k) : (gridQ (1 / (k : ℚ))).head? = some 0 := by
  rw [gridQ_unit k hk, List.range_succ_eq_map]
  simp

theorem gridQ_unit_last (k : ℕ) (hk : 0 < k) : (gridQ (1 / (k : ℚ))).getLast? = some 1 := by
  have hk0 : ((k : ℚ)) ≠ 0 := Nat.cast_ne_zero.mpr hk.ne'
  rw [gridQ_unit k hk, List.getLast?_map, List.getLast?_eq_getElem?]
  rw [List.length_range, Nat.add_sub_cancel, List.getElem?_range (by omega : k < k + 1)]
  simp [div_self hk0]

theorem gridQ_one : gridQ 1 = [0, 1] := by
  have hc : Nat.ceil ((1 + (1 : ℚ)) / 1) = 2 := by
    rw [Nat.ceil_eq_iff (by norm_num)]
    norm_num
  rw [gridQ_eq, hc]
  norm_num [List.range_succ]

theorem gridQ_tenth : gridQ (1 / 10) = gridQ (1 / ((10 : ℕ) : ℚ)) := by
  norm_num

/-- C5: the claim as written fails.  At the admissible step size `h = 2/3`
(`0 < h ≤ 1`), `np.arange(0, 1 + h, h)` yields the three points
`[0, 2/3, 4/3]`: the length is not `⌊1/h⌋ + 1 = 2` and the final element
is `4/3`, not `1` (the source never clamps the last point). -/
theorem C5_counterexample :
    (0 : ℚ) < 2 / 3 ∧ (2 / 3 : ℚ) ≤ 1 ∧
    gridQ (2 / 3) = [0, 2 / 3, 4 / 3] ∧
    ⌊(1 : ℚ) / (2 / 3)⌋ = 1 ∧
    (gridQ (2 / 3)).length ≠ 1 + 1 ∧
    (gridQ (2 / 3)).getLast? ≠ some 1 := by
  have hc : Nat.ceil ((1 + (2 : ℚ) / 3) / (2 / 3)) = 3 := by
    rw [Nat.ceil_eq_iff (by norm_num)]
    norm_num
  have hg : gridQ (2 / 3) = [0, 2 / 3, 4 / 3] := by
    rw [gridQ_eq, hc]
    norm_num [List.range_succ]
  refine ⟨by norm_num, by norm_num, hg, ?_, by rw [hg]; norm_num, by rw [hg]; norm_num⟩
  rw [show (1 : ℚ) / (2 / 3) = 3 / 2 by norm_num, Int.floor_eq_iff]
  norm_num

/-- C5 (amended): for step sizes `h = 1/k` that divide the interval
exactly (`k ≥ 1`; in particular the default `h = 0.1`), the shared grid
`np.arange(0, 1 + h, h)` is `[0, 1/k, ..., 1]`: it has `⌊1/h⌋ + 1 = k + 1`
entries, is strictly increasing with spacing `h`, starts at `0` and ends
exactly at `1`.  (For other `h ∈ (0, 1]` the grid overshoots `1`, see the
counterexample.) -/
theorem C5_grid (k : ℕ) (hk : 0 < k) :
    gridQ (1 / (k : ℚ)) = (List.range (k + 1)).map (fun (i : ℕ) => (i : ℚ) / k) ∧
    (gridQ (1 / (k : ℚ))).length = k + 1 ∧
    (gridQ (1 / (k : ℚ))).head? = some 0 ∧
    (gridQ (1 / (k : ℚ))).getLast? = some 1 ∧
    (gridQ (1 / (k : ℚ))).Pairwise (· < ·) ∧
    ∀ i : ℕ, i < k →
      (gridQ (1 / (k : ℚ))).getD (i + 1) 0 - (gridQ (1 / (k : ℚ))).getD i 0 = 1 / (k : ℚ) := by
  have hk0 : ((k : ℚ)) ≠ 0 := Nat.cast_ne_zero.mpr hk.ne'
  have hkpos : (0 : ℚ) < (k : ℚ) := by exact_mod_cast hk
  have hu := gridQ_unit k hk
  refine ⟨hu, gridQ_unit_length k hk, gridQ_unit_head k hk, gridQ_unit_last k hk, ?_, ?_⟩
  · rw [hu, List.pairwise_map]
    refine List.Pairwise.imp ?_ (List.pairwise_lt_range _)
    intro a b hab
    exact div_lt_div_of_pos_right (by exact_mod_cast hab) hkpos
  · intro i hi
    have hlen := gridQ_unit_length k hk
    rw [gridQ_getD _ _ (by omega : i + 1 < (gridQ (1 / (k : ℚ))).length),
      gridQ_getD _ _ (by omega : i < (gridQ (1 / (k : ℚ))).length)]
    push_cast
    ring

/-- C5 witness: the amended statement at the default `k = 10`
(`h = 0.1`): 11 grid points ending exactly at `1`. -/
theorem C5_grid_witness :
    (0 < 10) ∧ (gridQ (1 / (10 : ℚ))).length = 10 + 1 ∧
    (gridQ (1 / (10 : ℚ))).getLast? = some 1 :=
  ⟨by norm_num, (C5_grid 10 (by norm_num)).2.1, (C5_grid 10 (by norm_num)).2.2.2.1⟩

/-- C6: the claim as written fails.  The source performs no validation of
the step size: at `h = 2 > 1` grid construction succeeds and returns the
two-point grid `[0, 2]`, and at the concrete `h = -1/2 < 0` it returns
the empty grid — no `InvalidConfig` failure occurs at grid construction
in either case. -/
theorem C6_counterexample :
    (1 : ℚ) < 2 ∧ gridQ 2 = [0, 2] ∧
    (-1 / 2 : ℚ) < 0 ∧ gridQ (-1 / 2) = [] := by
  have hc2 : Nat.ceil ((1 + (2 : ℚ)) / 2) = 2 := by
    rw [Nat.ceil_eq_iff (by norm_num)]
    norm_num
  have hcn : Nat.ceil ((1 + (-1 : ℚ) / 2) / (-1 / 2)) = 0 := by
    rw [Nat.ceil_eq_zero]
    norm_num
  refine ⟨by norm_num, ?_, by norm_num, ?_⟩
  · rw [gridQ_eq, hc2]
    norm_num [List.range_succ]
  · rw [gridQ_eq, hcn]
    simp

/-- C6 (amended): there is no step-size validation and no `InvalidConfig`
error path in the code.  For every `h > 1`, grid construction itself
does not fail: `np.arange(0, 1 + h, h)` returns the two-point grid
`[0, h]`.  A run with such an `h` does abort, but only downstream and
with a different error of a different component: the returned grid
contains the sample point `h > 1` outside `t_span = [0, 1]`, so the
first `solve_ivp` call fails its `t_eval` validation (a scipy
`ValueError`), not an `InvalidConfig` at grid construction. -/
theorem C6_no_validation (h : ℚ) (h1 : 1 < h) :
    gridQ h = [0, h] ∧ tEvalInSpan 0 1 (gridQ h) = false := by
  have h0 : (0 : ℚ) < h := lt_trans one_pos h1
  have hc : Nat.ceil ((1 + h) / h) = 2 := by
    rw [Nat.ceil_eq_iff (by norm_num)]
    constructor
    · push_cast
      rw [lt_div_iff₀ h0]
      linarith
    · push_cast
      rw [div_le_iff₀ h0]
      linarith
  have hg : gridQ h = [0, h] := by
    rw [gridQ_eq, hc]
    norm_num [List.range_succ]
  refine ⟨hg, ?_⟩
  rw [hg]
  have hle : decide (h ≤ 1) = false := decide_eq_false (not_le.mpr h1)
  simp [tEvalInSpan, hle]

/-- C6 witness: the amended statement at `h = 3`: the grid is `[0, 3]`
and its sample point `3` lies outside `t_span = [0, 1]`, so the
`solve_ivp` validation fails. -/
theorem C6_no_validation_witness :
    (1 : ℚ) < 3 ∧ gridQ 3 = [0, 3] ∧ tEvalInSpan 0 1 (gridQ 3) = false :=
  ⟨by norm_num, (C6_no_validation 3 (by norm_num)).1, (C6_no_validation 3 (by norm_num)).2⟩

theorem fdN_eq (h : ℚ) (h0 : 0 < h) : fdN h = Nat.ceil (1 / h) + 1 := by
  rw [fdN, gridQ_length, gridQ_length_pos h h0]

theorem xQ_eq (h : ℚ) (i : ℕ) (hi : i < fdN h) : xQ h i = (i : ℚ) * h :=
  gridQ_getD h i hi

theorem linsolve_mulVec {n : ℕ} (A : Matrix (Fin n) (Fin n) ℚ) (b : Fin n → ℚ)
    (hA : A.det ≠ 0) : A.mulVec (linsolve A b) = b := by
  unfold linsolve
  rw [Matrix.mulVec_smul, Matrix.mulVec_cramer, smul_smul, inv_mul_cancel₀ hA, one_smul]

theorem fdA_row_first (h : ℚ) (i j : Fin (fdN h)) (hi : i.val = 0) :
    fdA h i j = if j.val = 0 then 1 else 0 := by
  rw [fdA, Matrix.of_apply, if_pos hi]

theorem fdA_row_last (h : ℚ) (i j : Fin (fdN h)) (hn : 2 ≤ fdN h)
    (hi : i.val = fdN h - 1) :
    fdA h i j = if j.val = fdN h - 1 then 1 else 0 := by
  have h0 : ¬ i.val = 0 := by omega
  rw [fdA, Matrix.of_apply, if_neg h0, if_pos hi]

theorem fdA_interior (h : ℚ) (i : Fin (fdN h)) (hi1 : 1 ≤ i.val) (hi2 : i.val < fdN h - 1)
    (j : Fin (fdN h)) :
    fdA h i j =
      if j.val + 1 = i.val then 1 / h ^ 2 + (xQ h i.val + 1) / (2 * h)
      else if j.val = i.val then -2 / h ^ 2 - 2
      else if j.val = i.val + 1 then 1 / h ^ 2 - (xQ h i.val + 1) / (2 * h)
      else 0 := by
  have h0 : ¬ i.val = 0 := by omega
  have hl : ¬ i.val = fdN h - 1 := by omega
  rw [fdA, Matrix.of_apply, if_neg h0, if_neg hl]

theorem fdb_interior (h : ℚ) (ex : ℚ → ℚ) (i : Fin (fdN h))
    (hi1 : 1 ≤ i.val) (hi2 : i.val < fdN h - 1) :
    fdb h ex i = (1 - (xQ h i.val) ^ 2) * ex (xQ h i.val) := by
  have h0 : ¬ i.val = 0 := by omega
  have hl : ¬ i.val = fdN h - 1 := by omega
  simp only [fdb]
  rw [if_neg hl, if_neg h0]

theorem fd_mulVec_interior (h : ℚ) (y : Fin (fdN h) → ℚ) (i : Fin (fdN h))
    (hi1 : 1 ≤ i.val) (hi2 : i.val < fdN h - 1) :
    (fdA h).mulVec y i =
      (1 / h ^ 2 + (xQ h i.val + 1) / (2 * h)) * y ⟨i.val - 1, by omega⟩
      + (-2 / h ^ 2 - 2) * y i
      + (1 / h ^ 2 - (xQ h i.val + 1) / (2 * h)) * y ⟨i.val + 1, by omega⟩ := by
  classical
  set a : Fin (fdN h) := ⟨i.val - 1, by omega⟩ with ha
  set c : Fin (fdN h) := ⟨i.val + 1, by omega⟩ with hc
  have hav : a.val = i.val - 1 := by rw [ha]
  have hcv : c.val = i.val + 1 := by rw [hc]
  have hmv : (fdA h).mulVec y i = ∑ j : Fin (fdN h), fdA h i j * y j := by
    simp [Matrix.mulVec, Matrix.dotProduct]
  rw [hmv]
  have hsub : ({a, i, c} : Finset (Fin (fdN h))) ⊆ Finset.univ := Finset.subset_univ _
  have hvan : ∀ j ∈ Finset.univ, j ∉ ({a, i, c} : Finset (Fin (fdN h))) →
      fdA h i j * y j = 0 := by
    intro j _ hj
    simp only [Finset.mem_insert, Finset.mem_singleton, not_or] at hj
    obtain ⟨hja, hji, hjc⟩ := hj
    rw [fdA_interior h i hi1 hi2 j]
    have b1 : ¬ j.val + 1 = i.val := fun hv => hja (Fin.ext (by omega))
    have b2 : ¬ j.val = i.val := fun hv => hji (Fin.ext hv)
    have b3 : ¬ j.val = i.val + 1 := fun hv => hjc (Fin.ext (by omega))
    simp [b1, b2, b3]
  rw [← Finset.sum_subset hsub hvan]
  have hai : a ≠ i := fun hv => by
    have hv' := congrArg Fin.val hv
    omega
  have hac : a ≠ c := fun hv => by
    have hv' := congrArg Fin.val hv
    omega
  have hic : i ≠ c := fun hv => by
    have hv' := congrArg Fin.val hv
    omega
  rw [Finset.sum_insert (by simp [hai, hac]), Finset.sum_insert (by simp [hic]),
    Finset.sum_singleton]
  have hEa : fdA h i a = 1 / h ^ 2 + (xQ h i.val + 1) / (2 * h) := by
    rw [fdA_interior h i hi1 hi2 a, if_pos (by omega)]
  have hEi : fdA h i i = -2 / h ^ 2 - 2 := by
    rw [fdA_interior h i hi1 hi2 i, if_neg (by omega), if_pos rfl]
  have hEc : fdA h i c = 1 / h ^ 2 - (xQ h i.val + 1) / (2 * h) := by
    rw [fdA_interior h i hi1 hi2 c, if_neg (by omega), if_neg (by omega), if_pos (by omega)]
  rw [hEa, hEi, hEc]
  ring

theorem rat_norm_of_nonneg (q : ℚ) (hq : 0 ≤ q) : ‖q‖ = ((q : ℝ)) := by
  rw [← Rat.norm_cast_real, Real.norm_eq_abs, abs_of_nonneg (by exact_mod_cast hq)]

theorem fd_interior_x_lt_one (h : ℚ) (h0 : 0 < h) (i : ℕ) (hi : i < fdN h - 1) :
    xQ h i < 1 := by
  have hiN : i < fdN h := by omega
  rw [xQ_eq h i hiN]
  have hN : fdN h = Nat.ceil (1 / h) + 1 := fdN_eq h h0
  have hple : (i : ℚ) ≤ (Nat.ceil (1 / h) : ℚ) - 1 := by
    have h1 : 1 ≤ Nat.ceil (1 / h) := by
      rw [Nat.one_le_ceil_iff]
      positivity
    have : i ≤ Nat.ceil (1 / h) - 1 := by omega
    have hcast : ((Nat.ceil (1 / h) - 1 : ℕ) : ℚ) = (Nat.ceil (1 / h) : ℚ) - 1 := by
      push_cast [Nat.cast_sub h1]
      ring
    calc (i : ℚ) ≤ ((Nat.ceil (1 / h) - 1 : ℕ) : ℚ) := by exact_mod_cast this
      _ = (Nat.ceil (1 / h) : ℚ) - 1 := hcast
  have hceil : (Nat.ceil (1 / h) : ℚ) < 1 / h + 1 := Nat.ceil_lt_add_one (by positivity)
  have hlt : (i : ℚ) < 1 / h := by linarith
  calc (i : ℚ) * h < (1 / h) * h := by
        exact mul_lt_mul_of_pos_right hlt h0
    _ = 1 := by field_simp

theorem fdN_three (h : ℚ) (h0 : 0 < h) (hh : h ≤ 1 / 2) : 3 ≤ fdN h := by
  rw [fdN_eq h h0]
  have h2 : (2 : ℚ) ≤ 1 / h := by
    rw [le_div_iff₀ h0]
    linarith
  have h2c : (2 : ℚ) ≤ (Nat.ceil (1 / h) : ℚ) := le_trans h2 (Nat.le_ceil _)
  have : 2 ≤ Nat.ceil (1 / h) := by exact_mod_cast h2c
  omega

/-- Strict diagonal dominance of the finite-difference matrix for
`0 < h ≤ 1/2`: Gershgorin gives a nonzero determinant, so the linear
solve is well posed (the `SingularSystem` case of the spec indeed cannot
occur in this range). -/
theorem fdA_det_ne_zero (h : ℚ) (h0 : 0 < h) (hh : h ≤ 1 / 2) : (fdA h).det ≠ 0 := by
  classical
  have h3 : 3 ≤ fdN h := fdN_three h h0 hh
  apply det_ne_zero_of_sum_row_lt_diag
  intro k
  have hkN : k.val < fdN h := k.isLt
  rcases eq_or_ne k.val 0 with hk0 | hk0
  · have hdiag : fdA h k k = 1 := by rw [fdA_row_first h k k hk0, if_pos hk0]
    have hsum : ∑ j ∈ Finset.univ.erase k, ‖fdA h k j‖ = 0 := by
      apply Finset.sum_eq_zero
      intro j hj
      have hjk : j ≠ k := (Finset.mem_erase.mp hj).1
      have hz : fdA h k j = 0 := by
        rw [fdA_row_first h k j hk0, if_neg (fun hv => hjk (Fin.ext (by omega)))]
      rw [hz, norm_zero]
    rw [hsum, hdiag, norm_one]
    norm_num
  rcases eq_or_ne k.val (fdN h - 1) with hkl | hkl
  · have hdiag : fdA h k k = 1 := by rw [fdA_row_last h k k (by omega) hkl, if_pos hkl]
    have hsum : ∑ j ∈ Finset.univ.erase k, ‖fdA h k j‖ = 0 := by
      apply Finset.sum_eq_zero
      intro j hj
      have hjk : j ≠ k := (Finset.mem_erase.mp hj).1
      have hz : fdA h k j = 0 := by
        rw [fdA_row_last h k j (by omega) hkl, if_neg (fun hv => hjk (Fin.ext (by omega)))]
      rw [hz, norm_zero]
    rw [hsum, hdiag, norm_one]
    norm_num
  · have hk1 : 1 ≤ k.val := by omega
    have hk2 : k.val < fdN h - 1 := by omega
    set a : Fin (fdN h) := ⟨k.val - 1, by omega⟩ with ha
    set c : Fin (fdN h) := ⟨k.val + 1, by omega⟩ with hc
    have hav : a.val = k.val - 1 := by rw [ha]
    have hcv : c.val = k.val + 1 := by rw [hc]
    have hx0 : 0 ≤ xQ h k.val := by
      rw [xQ_eq h k.val hkN]
      positivity
    have hx1 : xQ h k.val < 1 := fd_interior_x_lt_one h h0 k.val hk2
    set L : ℚ := 1 / h ^ 2 + (xQ h k.val + 1) / (2 * h) with hL
    set H : ℚ := 1 / h ^ 2 - (xQ h k.val + 1) / (2 * h) with hH
    have hLpos : 0 < L := by
      rw [hL]
      positivity
    have hHpos : 0 < H := by
      rw [hH]
      have e1 : (xQ h k.val + 1) / (2 * h) < 1 / h := by
        rw [div_lt_div_iff₀ (by positivity) h0]
        nlinarith
      have e2 : 1 / h ≤ 1 / h ^ 2 := by
        rw [div_le_div_iff₀ h0 (by positivity)]
        nlinarith
      linarith
    have hEa : fdA h k a = L := by
      rw [fdA_interior h k hk1 hk2 a, if_pos (by omega)]
    have hEc : fdA h k c = H := by
      rw [fdA_interior h k hk1 hk2 c, if_neg (by omega), if_neg (by omega), if_pos (by omega)]
    have hak : a ≠ k := fun hv => by
      have hv' := congrArg Fin.val hv
      omega
    have hck : c ≠ k := fun hv => by
      have hv' := congrArg Fin.val hv
      omega
    have hac : a ≠ c := fun hv => by
      have hv' := congrArg Fin.val hv
      omega
    have hsum : ∑ j ∈ Finset.univ.erase k, ‖fdA h k j‖ = ‖L‖ + ‖H‖ := by
      rw [show ‖L‖ = ‖fdA h k a‖ by rw [hEa], show ‖H‖ = ‖fdA h k c‖ by rw [hEc]]
      apply Finset.sum_eq_add a c hac
      · intro j hj hjac
        have hjk : j ≠ k := (Finset.mem_erase.mp hj).1
        have hja : j ≠ a := hjac.1
        have hjc : j ≠ c := hjac.2
        have hz : fdA h k j = 0 := by
          rw [fdA_interior h k hk1 hk2 j, if_neg, if_neg, if_neg]
          · exact fun hv => hjc (Fin.ext (by omega))
          · exact fun hv => hjk (Fin.ext hv)
          · exact fun hv => hja (Fin.ext (by omega))
        rw [hz, norm_zero]
      · intro hna
        exact absurd (Finset.mem_erase.mpr ⟨hak, Finset.mem_univ a⟩) hna
      · intro hnc
        exact absurd (Finset.mem_erase.mpr ⟨hck, Finset.mem_univ c⟩) hnc
    have hEk : fdA h k k = -2 / h ^ 2 - 2 := by
      rw [fdA_interior h k hk1 hk2 k, if_neg (by omega), if_pos rfl]
    have hDnorm : ‖fdA h k k‖ = ((2 / h ^ 2 + 2 : ℚ) : ℝ) := by
      rw [hEk, show (-2 / h ^ 2 - 2 : ℚ) = -(2 / h ^ 2 + 2) by ring, norm_neg,
        rat_norm_of_nonneg _ (by positivity)]
    rw [hsum, rat_norm_of_nonneg L hLpos.le, rat_norm_of_nonneg H hHpos.le, hDnorm]
    have hLH : L + H = 2 / h ^ 2 := by
      rw [hL, hH]
      ring
    have hQ : L + H < 2 / h ^ 2 + 2 := by
      rw [hLH]
      linarith
    exact_mod_cast hQ

theorem fd_mulVec_first (h : ℚ) (y : Fin (fdN h) → ℚ) (i : Fin (fdN h)) (hi : i.val = 0) :
    (fdA h).mulVec y i = y i := by
  classical
  have hmv : (fdA h).mulVec y i = ∑ j : Fin (fdN h), fdA h i j * y j := by
    simp [Matrix.mulVec, Matrix.dotProduct]
  rw [hmv, Finset.sum_eq_single i]
  · rw [fdA_row_first h i i hi, if_pos hi, one_mul]
  · intro j _ hji
    rw [fdA_row_first h i j hi, if_neg (fun hv => hji (Fin.ext (by omega))), zero_mul]
  · intro habs
    exact absurd (Finset.mem_univ i) habs

theorem fd_mulVec_last (h : ℚ) (y : Fin (fdN h) → ℚ) (i : Fin (fdN h))
    (hn : 2 ≤ fdN h) (hi : i.val = fdN h - 1) :
    (fdA h).mulVec y i = y i := by
  classical
  have hmv : (fdA h).mulVec y i = ∑ j : Fin (fdN h), fdA h i j * y j := by
    simp [Matrix.mulVec, Matrix.dotProduct]
  rw [hmv, Finset.sum_eq_single i]
  · rw [fdA_row_last h i i hn hi, if_pos hi, one_mul]
  · intro j _ hji
    rw [fdA_row_last h i j hn hi, if_neg (fun hv => hji (Fin.ext (by omega))), zero_mul]
  · intro habs
    exact absurd (Finset.mem_univ i) habs

theorem fdY_first (h : ℚ) (ex : ℚ → ℚ) (h0 : 0 < h) (hh : h ≤ 1 / 2)
    (i : Fin (fdN h)) (hi : i.val = 0) : fdY h ex i = 1 := by
  have h3 : 3 ≤ fdN h := fdN_three h h0 hh
  have hmv : (fdA h).mulVec (fdY h ex) = fdb h ex :=
    linsolve_mulVec _ _ (fdA_det_ne_zero h h0 hh)
  have hrow := congrFun hmv i
  rw [fd_mulVec_first h (fdY h ex) i hi] at hrow
  rw [hrow]
  simp only [fdb]
  rw [if_neg (by omega), if_pos hi]

theorem fdY_last (h : ℚ) (ex : ℚ → ℚ) (h0 : 0 < h) (hh : h ≤ 1 / 2)
    (i : Fin (fdN h)) (hi : i.val = fdN h - 1) : fdY h ex i = 2 := by
  have h3 : 3 ≤ fdN h := fdN_three h h0 hh
  have hmv : (fdA h).mulVec (fdY h ex) = fdb h ex :=
    linsolve_mulVec _ _ (fdA_det_ne_zero h h0 hh)
  have hrow := congrFun hmv i
  rw [fd_mulVec_last h (fdY h ex) i (by omega) hi] at hrow
  rw [hrow]
  simp only [fdb]
  rw [if_pos hi]

/-- C2: for every `0 < h ≤ 1/2` (so the grid has `n ≥ 3` points and the
interior/boundary split of the spec is meaningful), `finite_difference_method`
builds exactly the linear system stated by the spec — boundary rows
`A[0,0] = 1, b[0] = 1` and `A[n-1,n-1] = 1, b[n-1] = 2` with all other
boundary-row entries zero, interior rows
`A[i,i-1] = 1/h² + (xᵢ+1)/(2h)`, `A[i,i] = -2/h² - 2`,
`A[i,i+1] = 1/h² - (xᵢ+1)/(2h)`, `b[i] = (1-xᵢ²)·exp(-xᵢ)` — and the
returned vector `y` satisfies `A y = b` exactly over `ℚ`: the discrete
difference equation holds with zero residual (hence within the claimed
`1e-10`) at every interior point and the two boundary values hold
exactly.  (`ex` is the abstract stand-in for `x ↦ exp (-x)`; the matrix,
and hence solvability, does not depend on it.) -/
theorem C2_fd_system (h : ℚ) (ex : ℚ → ℚ) (h0 : 0 < h) (hh : h ≤ 1 / 2) :
    3 ≤ fdN h ∧
    fdN h = (gridQ h).length ∧
    (∀ i j : Fin (fdN h), i.val = 0 → fdA h i j = if j.val = 0 then 1 else 0) ∧
    (∀ i : Fin (fdN h), i.val = 0 → fdb h ex i = 1) ∧
    (∀ i j : Fin (fdN h), i.val = fdN h - 1 →
      fdA h i j = if j.val = fdN h - 1 then 1 else 0) ∧
    (∀ i : Fin (fdN h), i.val = fdN h - 1 → fdb h ex i = 2) ∧
    (∀ i : Fin (fdN h), ∀ hi1 : 1 ≤ i.val, ∀ hi2 : i.val < fdN h - 1, ∀ j : Fin (fdN h),
      (j.val + 1 = i.val → fdA h i j = 1 / h ^ 2 + (xQ h i.val + 1) / (2 * h)) ∧
      (j.val = i.val → fdA h i j = -2 / h ^ 2 - 2) ∧
      (j.val = i.val + 1 → fdA h i j = 1 / h ^ 2 - (xQ h i.val + 1) / (2 * h))) ∧
    (∀ i : Fin (fdN h), ∀ hi1 : 1 ≤ i.val, ∀ hi2 : i.val < fdN h - 1,
      fdb h ex i = (1 - (xQ h i.val) ^ 2) * ex (xQ h i.val)) ∧
    (fdA h).mulVec (fdY h ex) = fdb h ex ∧
    (∀ i : Fin (fdN h), ∀ hi1 : 1 ≤ i.val, ∀ hi2 : i.val < fdN h - 1,
      (1 / h ^ 2 + (xQ h i.val + 1) / (2 * h)) * fdY h ex ⟨i.val - 1, by omega⟩
        + (-2 / h ^ 2 - 2) * fdY h ex i
        + (1 / h ^ 2 - (xQ h i.val + 1) / (2 * h)) * fdY h ex ⟨i.val + 1, by omega⟩
      = (1 - (xQ h i.val) ^ 2) * ex (xQ h i.val)) ∧
    (∀ i : Fin (fdN h), i.val = 0 → fdY h ex i = 1) ∧
    (∀ i : Fin (fdN h), i.val = fdN h - 1 → fdY h ex i = 2) := by
  have h3 : 3 ≤ fdN h := fdN_three h h0 hh
  have hdet : (fdA h).det ≠ 0 := fdA_det_ne_zero h h0 hh
  have hmv : (fdA h).mulVec (fdY h ex) = fdb h ex := linsolve_mulVec _ _ hdet
  refine ⟨h3, rfl, ?_, ?_, ?_, ?_, ?_, ?_, hmv, ?_, ?_, ?_⟩
  · intro i j hi
    exact fdA_row_first h i j hi
  · intro i hi
    simp only [fdb]
    rw [if_neg (by omega), if_pos hi]
  · intro i j hi
    exact fdA_row_last h i j (by omega) hi
  · intro i hi
    simp only [fdb]
    rw [if_pos hi]
  · intro i hi1 hi2 j
    refine ⟨?_, ?_, ?_⟩
    · intro hj
      rw [fdA_interior h i hi1 hi2 j, if_pos hj]
    · intro hj
      rw [fdA_interior h i hi1 hi2 j, if_neg (by omega), if_pos hj]
    · intro hj
      rw [fdA_interior h i hi1 hi2 j, if_neg (by omega), if_neg (by omega), if_pos hj]
  · intro i hi1 hi2
    exact fdb_interior h ex i hi1 hi2
  · intro i hi1 hi2
    have hrow := congrFun hmv i
    rw [fd_mulVec_interior h (fdY h ex) i hi1 hi2] at hrow
    rw [fdb_interior h ex i hi1 hi2] at hrow
    exact hrow
  · intro i hi
    exact fdY_first h ex h0 hh i hi
  · intro i hi
    exact fdY_last h ex h0 hh i hi

/-- C2 witness: the theorem applied at `h = 1/2` with the constant-one
stand-in for `exp`; in particular `A y = b` holds exactly there. -/
theorem C2_fd_system_witness :
    (0 : ℚ) < 1 / 2 ∧ (1 / 2 : ℚ) ≤ 1 / 2 ∧
    (fdA (1 / 2)).mulVec (fdY (1 / 2) (fun _ => 1)) = fdb (1 / 2) (fun _ => 1) :=
  ⟨by norm_num, le_refl _,
    (C2_fd_system (1 / 2) (fun _ => 1) (by norm_num)
      (le_refl _)).2.2.2.2.2.2.2.2.1⟩

theorem fdN_one : fdN 1 = 2 := by
  rw [fdN, gridQ_length, Nat.ceil_eq_iff (by norm_num)]
  norm_num

theorem fdA_one : fdA 1 = (1 : Matrix (Fin (fdN 1)) (Fin (fdN 1)) ℚ) := by
  have hn := fdN_one
  ext i j
  have hi2 : i.val < 2 := hn ▸ i.isLt
  have hj2 : j.val < 2 := hn ▸ j.isLt
  rcases (by omega : i.val = 0 ∨ i.val = 1) with hi | hi <;>
    rcases (by omega : j.val = 0 ∨ j.val = 1) with hj | hj <;>
      simp [fdA, hi, hj, hn, Matrix.one_apply, Fin.ext_iff]

/-- C9: at `h = 1` the grid is the two points `[0, 1]`, both rows of the
linear system are Dirichlet boundary rows (the interior loop is empty,
`A` is the identity), and `finite_difference_method` returns exactly
`y = [1, 2]`. -/
theorem C9_fd_degenerate (ex : ℚ → ℚ) :
    finite_difference_method ex 1 = ([0, 1], [1, 2]) := by
  have hn := fdN_one
  have hgrid : gridQ 1 = [0, 1] := gridQ_one
  have hy : fdY 1 ex = fdb 1 ex := by
    unfold fdY linsolve
    rw [fdA_one, Matrix.det_one, inv_one, one_smul]
    have hmc := Matrix.mulVec_cramer (1 : Matrix (Fin (fdN 1)) (Fin (fdN 1)) ℚ) (fdb 1 ex)
    rwa [Matrix.det_one, one_smul, Matrix.one_mulVec] at hmc
  unfold finite_difference_method
  rw [hgrid, hy]
  refine Prod.ext rfl ?_
  apply List.ext_getElem
  · simp [hn]
  · intro i hi1 hi2
    have hi : i < 2 := by simpa [hn] using hi1
    rcases (by omega : i = 0 ∨ i = 1) with rfl | rfl <;>
      simp [fdb, fdN_one]

/-- C9 witness: the theorem applied at the concrete input `ex = exp₀`
(the constant-one stand-in for `x ↦ exp (-x)`; the value is irrelevant
since a two-point grid has no interior row). -/
theorem C9_fd_degenerate_witness :
    finite_difference_method (fun _ => 1) 1 = ([0, 1], [1, 2]) :=
  C9_fd_degenerate (fun _ => 1)

theorem boundary_residual_at_one (S : IVPSolver) (ex : ℚ → ℚ) (k : ℕ) (hk : 0 < k)
    (alpha : ℚ) :
    boundary_residual S ex (gridQ (1 / (k : ℚ))) alpha
      = (S (ode_system ex) (0, 1) (1, alpha) shootingTol 1).1 - 2 := by
  unfold boundary_residual solve_shooting
  rw [List.getLast?_map, List.getLast?_map, gridQ_unit_last k hk]
  simp

/-- C7: if the shooting residual has the same nonzero sign at both ends
of the bracket `[-10, 10]` (the condition under which brentq raises),
`shooting_method` fails with `NoRootInBracket`; the script installs no
handler and makes no retry with a wider bracket, so the whole run aborts
before any table row (or plot input) is produced. -/
theorem C7_no_root_fatal (S : IVPSolver) (R : RootFinder) (M : Minimizer) (ex : ℚ → ℚ)
    (h : ℚ)
    (hsign : 0 < boundary_residual S ex (gridQ h) (-10) *
      boundary_residual S ex (gridQ h) 10) :
    shooting_method S R ex h = Except.error "NoRootInBracket" ∧
    runAll S R M ex h = Except.error "NoRootInBracket" ∧
    mainTable S R M ex h = Except.error "NoRootInBracket" := by
  have hsm : shooting_method S R ex h = Except.error "NoRootInBracket" := by
    unfold shooting_method
    rw [if_pos hsign]
  have hra : runAll S R M ex h = Except.error "NoRootInBracket" := by
    unfold runAll
    rw [hsm]
    rfl
  refine ⟨hsm, hra, ?_⟩
  unfold mainTable
  rw [hra]
  rfl

/-- C7 witness: with an integrator whose sampled trajectory is the
constant `(10, 0)` the residual is `8` at both bracket ends, and the run
aborts with `NoRootInBracket`. -/
theorem C7_no_root_fatal_witness :
    (0 < boundary_residual (fun _ _ _ _ _ => (10, 0)) (fun _ => 0) (gridQ 1) (-10) *
      boundary_residual (fun _ _ _ _ _ => (10, 0)) (fun _ => 0) (gridQ 1) 10) ∧
    shooting_method (fun _ _ _ _ _ => (10, 0)) (fun _ _ _ => 0) (fun _ => 0) 1
      = Except.error "NoRootInBracket" ∧
    mainTable (fun _ _ _ _ _ => (10, 0)) (fun _ _ _ => 0) (fun _ _ _ => ⟨(0, 0, 0), true⟩)
      (fun _ => 0) 1 = Except.error "NoRootInBracket" := by
  have hb : ∀ alpha : ℚ,
      boundary_residual (fun _ _ _ _ _ => (10, 0)) (fun _ => 0) (gridQ 1) alpha = 8 := by
    intro alpha
    unfold boundary_residual solve_shooting
    rw [gridQ_one]
    norm_num
  have hsign : (0 : ℚ) < boundary_residual (fun _ _ _ _ _ => (10, 0)) (fun _ => 0)
      (gridQ 1) (-10) * boundary_residual (fun _ _ _ _ _ => (10, 0)) (fun _ => 0)
      (gridQ 1) 10 := by
    rw [hb, hb]
    norm_num
  obtain ⟨h1, _, h3⟩ := C7_no_root_fatal (fun _ _ _ _ _ => (10, 0)) (fun _ _ _ => 0)
    (fun _ _ _ => ⟨(0, 0, 0), true⟩) (fun _ => 0) 1 hsign
  exact ⟨hsign, h1, h3⟩

/-- C8: the claim as written fails.  `variational_method` never inspects
the convergence report of the optimizer: with a minimizer that returns
parameters `(0,0,0)` and `success = False` — an outright failure — the
method still returns the fitted vector `[1, 1]` on the grid `[0, 1]`
as a normal value; no `OptimizationFailed` error is raised or
propagated anywhere in the source (`res.success` is never read). -/
theorem C8_counterexample :
    ((fun _ _ _ => ⟨(0, 0, 0), false⟩ : Minimizer)
      (residual_squared (fun _ => 0) (gridQ 1)) (0, 0, 0) consFun).success = false ∧
    variational_method (fun _ _ _ => ⟨(0, 0, 0), false⟩) (fun _ => 0) 1
      = ([0, 1], [1, 1]) := by
  refine ⟨rfl, ?_⟩
  unfold variational_method
  rw [gridQ_one]
  norm_num [trial]

/-- C8 (amended): the result of the optimizer is accepted unconditionally —
the returned vector depends only on the parameter vector `res.x`, never
on the reported convergence status, so near-convergence and outright
failure alike produce the normal fitted output (there is no
`OptimizationFailed` propagation in the code). -/
theorem C8_success_ignored (ex : ℚ → ℚ) (h : ℚ) (M M' : Minimizer)
    (hx : (M (residual_squared ex (gridQ h)) (0, 0, 0) consFun).x
        = (M' (residual_squared ex (gridQ h)) (0, 0, 0) consFun).x) :
    variational_method M ex h = variational_method M' ex h := by
  unfold variational_method
  dsimp only
  rw [hx]

/-- C8 witness: two minimizers returning the same point, one reporting
failure and one success, give identical outputs. -/
theorem C8_success_ignored_witness :
    ((fun _ _ _ => ⟨(1, 0, 0), false⟩ : Minimizer)
        (residual_squared (fun _ => 0) (gridQ 1)) (0, 0, 0) consFun).x
      = ((fun _ _ _ => ⟨(1, 0, 0), true⟩ : Minimizer)
        (residual_squared (fun _ => 0) (gridQ 1)) (0, 0, 0) consFun).x ∧
    variational_method (fun _ _ _ => ⟨(1, 0, 0), false⟩) (fun _ => 0) 1
      = variational_method (fun _ _ _ => ⟨(1, 0, 0), true⟩) (fun _ => 0) 1 :=
  ⟨rfl, C8_success_ignored (fun _ => 0) 1 (fun _ _ _ => ⟨(1, 0, 0), false⟩)
    (fun _ _ _ => ⟨(1, 0, 0), true⟩) rfl⟩

/-- C4: the structure of `variational_method`.  The trial family is the
cubic `1 + a x + b x² + c x³` (so `y(0) = 1` holds identically); the
`dy` and `d2y` formulas hard-coded in `residual_squared` are the exact
analytic first and second derivatives of the trial (no numerical
differentiation); the objective handed to the minimizer is the
trapezoid-rule quadrature of `r²` over the shared grid; the constraint
function `trial(1,·) - 2 = (1+a+b+c) - 2` is passed to the minimizer as
a separate equality constraint (not substituted out of the trial); the
initial guess is `(0,0,0)`; and the returned vector is the trial
evaluated at every grid point with the parameters chosen by the optimizer. -/
theorem C4_variational_structure (M : Minimizer) (ex : ℚ → ℚ) (h : ℚ) :
    (∀ x a b c : ℚ, trial x a b c = 1 + a * x + b * x ^ 2 + c * x ^ 3) ∧
    (∀ a b c : ℚ, trial 0 a b c = 1) ∧
    (∀ a b c t : ℚ, ((trial t a b c : ℚ) : ℝ)
        = 1 + (a : ℝ) * (t : ℝ) + (b : ℝ) * (t : ℝ) ^ 2 + (c : ℝ) * (t : ℝ) ^ 3) ∧
    (∀ a b c : ℚ, ∀ x : ℝ,
      HasDerivAt (fun t : ℝ => 1 + (a : ℝ) * t + (b : ℝ) * t ^ 2 + (c : ℝ) * t ^ 3)
        ((a : ℝ) + 2 * (b : ℝ) * x + 3 * (c : ℝ) * x ^ 2) x) ∧
    (∀ a b c : ℚ, ∀ x : ℝ,
      HasDerivAt (fun t : ℝ => (a : ℝ) + 2 * (b : ℝ) * t + 3 * (c : ℝ) * t ^ 2)
        (2 * (b : ℝ) + 6 * (c : ℝ) * x) x) ∧
    (∀ a b c t : ℚ, rRes ex a b c t
        = (2 * b + 6 * c * t) + (t + 1) * (a + 2 * b * t + 3 * c * t ^ 2)
          - 2 * trial t a b c - (1 - t ^ 2) * ex t) ∧
    (∀ p : ℚ × ℚ × ℚ, residual_squared ex (gridQ h) p
        = trapz ((gridQ h).map (fun t => (rRes ex p.1 p.2.1 p.2.2 t) ^ 2)) (gridQ h)) ∧
    (∀ a b c : ℚ, consFun (a, b, c) = (1 + a + b + c) - 2) ∧
    variational_method M ex h
      = (gridQ h,
        (gridQ h).map (fun t =>
          trial t (M (residual_squared ex (gridQ h)) (0, 0, 0) consFun).x.1
            (M (residual_squared ex (gridQ h)) (0, 0, 0) consFun).x.2.1
            (M (residual_squared ex (gridQ h)) (0, 0, 0) consFun).x.2.2)) := by
  refine ⟨fun x a b c => rfl, ?_, ?_, ?_, ?_, fun a b c t => rfl, fun p => rfl, ?_, rfl⟩
  · intro a b c
    simp [trial]
  · intro a b c t
    simp [trial]
  · intro a b c x
    have h1 : HasDerivAt (fun _ : ℝ => (1 : ℝ)) 0 x := hasDerivAt_const x 1
    have h2 : HasDerivAt (fun t : ℝ => (a : ℝ) * t) ((a : ℝ) * 1) x :=
      HasDerivAt.const_mul _ (hasDerivAt_id x)
    have h3 : HasDerivAt (fun t : ℝ => (b : ℝ) * t ^ 2) ((b : ℝ) * (2 * x ^ 1)) x :=
      HasDerivAt.const_mul _ (hasDerivAt_pow 2 x)
    have h4 : HasDerivAt (fun t : ℝ => (c : ℝ) * t ^ 3) ((c : ℝ) * (3 * x ^ 2)) x :=
      HasDerivAt.const_mul _ (hasDerivAt_pow 3 x)
    have hsum := ((h1.add h2).add h3).add h4
    convert hsum using 1
    ring
  · intro a b c x
    have h1 : HasDerivAt (fun _ : ℝ => (a : ℝ)) 0 x := hasDerivAt_const x _
    have h2 : HasDerivAt (fun t : ℝ => 2 * (b : ℝ) * t) (2 * (b : ℝ) * 1) x :=
      HasDerivAt.const_mul _ (hasDerivAt_id x)
    have h3 : HasDerivAt (fun t : ℝ => 3 * (c : ℝ) * t ^ 2) (3 * (c : ℝ) * (2 * x ^ 1)) x :=
      HasDerivAt.const_mul _ (hasDerivAt_pow 2 x)
    have hsum := (h1.add h2).add h3
    convert hsum using 1
    ring
  · intro a b c
    simp [consFun, trial]

/-- C4 witness: the structure theorem instantiated at the default grid
`h = 0.1` with a concrete minimizer and the zero stand-in for `exp`:
the returned pair is the trial evaluated on the grid. -/
theorem C4_variational_structure_witness :
    variational_method (fun _ _ _ => ⟨(0, 0, 0), true⟩) (fun _ => 0) (1 / 10)
      = (gridQ (1 / 10),
        (gridQ (1 / 10)).map (fun t =>
          trial t ((fun _ _ _ => ⟨(0, 0, 0), true⟩ : Minimizer)
              (residual_squared (fun _ => 0) (gridQ (1 / 10))) (0, 0, 0) consFun).x.1
            ((fun _ _ _ => ⟨(0, 0, 0), true⟩ : Minimizer)
              (residual_squared (fun _ => 0) (gridQ (1 / 10))) (0, 0, 0) consFun).x.2.1
            ((fun _ _ _ => ⟨(0, 0, 0), true⟩ : Minimizer)
              (residual_squared (fun _ => 0) (gridQ (1 / 10))) (0, 0, 0) consFun).x.2.2)) :=
  (C4_variational_structure (fun _ _ _ => ⟨(0, 0, 0), true⟩) (fun _ => 0)
    (1 / 10)).2.2.2.2.2.2.2.2

/-- C3: the structure of `shooting_method` for an exact step `h = 1/k`
(in particular the default `h = 0.1`).  The integrated first-order
system is `(y, y′) ↦ (y′, -(x+1) y′ + 2 y + (1-x²) exp(-x))` started
from `(1, alpha)` with `rtol = atol = 1e-8`; `boundary_residual(alpha)`
is the sampled `y` at the final grid point `x = 1` minus `2`; the root
finder is invoked on the bracket `[-10, 10]` (when the residual does not
block it with a same-sign bracket) and the returned vector is the
integration at the found root, one `y`-value per grid point with the
endpoints `0` and `1` included.  (The integrator and the Brent method are
scipy calls, modelled by the abstract `S` and `R`; the brentq root
tolerance itself — the scipy default `xtol = 2e-12 ≤ 1e-8` — lives inside
`R` and is carried as a hypothesis where a claim needs it.) -/
theorem C3_shooting_structure (S : IVPSolver) (R : RootFinder) (ex : ℚ → ℚ) (k : ℕ)
    (hk : 0 < k)
    (hs : ¬ 0 < boundary_residual S ex (gridQ (1 / (k : ℚ))) (-10) *
      boundary_residual S ex (gridQ (1 / (k : ℚ))) 10) :
    (∀ x y dy : ℚ, ode_system ex x (y, dy)
        = (dy, -(x + 1) * dy + 2 * y + (1 - x ^ 2) * ex x)) ∧
    shootingTol.rtol = 1 / 10 ^ 8 ∧ shootingTol.atol = 1 / 10 ^ 8 ∧
    (∀ alpha, solve_shooting S ex alpha (gridQ (1 / (k : ℚ)))
        = (gridQ (1 / (k : ℚ))).map (S (ode_system ex) (0, 1) (1, alpha) shootingTol)) ∧
    (∀ alpha, boundary_residual S ex (gridQ (1 / (k : ℚ))) alpha
        = (S (ode_system ex) (0, 1) (1, alpha) shootingTol 1).1 - 2) ∧
    shooting_method S R ex (1 / (k : ℚ))
      = Except.ok (gridQ (1 / (k : ℚ)),
          (solve_shooting S ex
            (R (boundary_residual S ex (gridQ (1 / (k : ℚ)))) (-10) 10)
            (gridQ (1 / (k : ℚ)))).map Prod.fst) ∧
    (∀ alpha, ((solve_shooting S ex alpha (gridQ (1 / (k : ℚ)))).map Prod.fst).length
        = (gridQ (1 / (k : ℚ))).length) ∧
    (gridQ (1 / (k : ℚ))).head? = some 0 ∧
    (gridQ (1 / (k : ℚ))).getLast? = some 1 := by
  refine ⟨fun x y dy => rfl, rfl, rfl, fun alpha => rfl,
    boundary_residual_at_one S ex k hk, ?_, ?_, gridQ_unit_head k hk, gridQ_unit_last k hk⟩
  · unfold shooting_method
    rw [if_neg hs]
  · intro alpha
    unfold solve_shooting
    rw [List.length_map, List.length_map]

/-- C3 witness: with the concrete integrator `S(f, span, y0, tol) =
t ↦ (1 + t, y0.2)` the residual vanishes identically, the bracket guard
passes, and the method returns the sampled integration at the found
root. -/
theorem C3_shooting_structure_witness :
    shootingTol.rtol = 1 / 10 ^ 8 ∧
    shooting_method (fun _ _ y0 _ t => (1 + t, y0.2)) (fun _ _ _ => 0) (fun _ => 0)
        (1 / ((10 : ℕ) : ℚ))
      = Except.ok (gridQ (1 / ((10 : ℕ) : ℚ)),
          (solve_shooting (fun _ _ y0 _ t => (1 + t, y0.2)) (fun _ => 0) 0
            (gridQ (1 / ((10 : ℕ) : ℚ)))).map Prod.fst) := by
  have hb : ∀ alpha : ℚ,
      boundary_residual (fun _ _ y0 _ t => (1 + t, y0.2)) (fun _ => 0)
        (gridQ (1 / ((10 : ℕ) : ℚ))) alpha = 0 := by
    intro alpha
    rw [boundary_residual_at_one (fun _ _ y0 _ t => (1 + t, y0.2)) (fun _ => 0) 10
      (by norm_num) alpha]
    norm_num
  have hs : ¬ 0 < boundary_residual (fun _ _ y0 _ t => (1 + t, y0.2)) (fun _ => 0)
      (gridQ (1 / ((10 : ℕ) : ℚ))) (-10) *
      boundary_residual (fun _ _ y0 _ t => (1 + t, y0.2)) (fun _ => 0)
      (gridQ (1 / ((10 : ℕ) : ℚ))) 10 := by
    rw [hb, hb]
    norm_num
  obtain ⟨h1, h2, h3, h4, h5, h6, h7⟩ := C3_shooting_structure
    (fun _ _ y0 _ t => (1 + t, y0.2)) (fun _ _ _ => 0) (fun _ => 0) 10 (by norm_num) hs
  exact ⟨h2, h6⟩

/-- C10: whenever `shooting_method` returns normally (the bracket guard
does not fire), all three solvers hand back the very same grid
`np.arange(0, 1 + h, h)` as their `x` array, and each `y` vector has
exactly the length of the grid, so the reporting loop `for i in
range(len(x_fd))` indexes `y_shoot[i]` and `y_var[i]` in bounds. -/
theorem C10_alignment (S : IVPSolver) (R : RootFinder) (M : Minimizer) (ex : ℚ → ℚ)
    (h : ℚ)
    (hs : ¬ 0 < boundary_residual S ex (gridQ h) (-10) *
      boundary_residual S ex (gridQ h) 10) :
    (∃ ys, shooting_method S R ex h = Except.ok (gridQ h, ys) ∧
      ys.length = (gridQ h).length ∧
      ∀ i : ℕ, i < (finite_difference_method ex h).1.length →
        i < ys.length ∧ i < (finite_difference_method ex h).2.length ∧
        i < (variational_method M ex h).2.length) ∧
    (finite_difference_method ex h).1 = gridQ h ∧
    (finite_difference_method ex h).2.length = (gridQ h).length ∧
    (variational_method M ex h).1 = gridQ h ∧
    (variational_method M ex h).2.length = (gridQ h).length := by
  have hfd1 : (finite_difference_method ex h).1 = gridQ h := rfl
  have hfd2 : (finite_difference_method ex h).2.length = (gridQ h).length := by
    show (List.ofFn (fdY h ex)).length = (gridQ h).length
    rw [List.length_ofFn]
    rfl
  have hv1 : (variational_method M ex h).1 = gridQ h := rfl
  have hv2 : (variational_method M ex h).2.length = (gridQ h).length := by
    show ((gridQ h).map _).length = (gridQ h).length
    rw [List.length_map]
  refine ⟨?_, hfd1, hfd2, hv1, hv2⟩
  refine ⟨(solve_shooting S ex
      (R (boundary_residual S ex (gridQ h)) (-10) 10) (gridQ h)).map Prod.fst, ?_, ?_, ?_⟩
  · unfold shooting_method
    rw [if_neg hs]
  · unfold solve_shooting
    rw [List.length_map, List.length_map]
  · intro i hi
    rw [hfd1] at hi
    unfold solve_shooting
    rw [List.length_map, List.length_map]
    exact ⟨hi, by omega, by rw [hv2]; exact hi⟩

/-- C10 witness: the alignment at `h = 1` with concrete scipy stand-ins:
the grid `[0, 1]` is shared and every vector has length 2. -/
theorem C10_alignment_witness :
    (finite_difference_method (fun _ => 0) 1).1 = gridQ 1 ∧
    (finite_difference_method (fun _ => 0) 1).2.length = (gridQ 1).length ∧
    (variational_method (fun _ _ _ => ⟨(0, 0, 0), true⟩) (fun _ => 0) 1).1 = gridQ 1 ∧
    (variational_method (fun _ _ _ => ⟨(0, 0, 0), true⟩) (fun _ => 0) 1).2.length
      = (gridQ 1).length := by
  have hb : ∀ alpha : ℚ,
      boundary_residual (fun _ _ y0 _ t => (1 + t, y0.2)) (fun _ => 0) (gridQ 1) alpha
        = 0 := by
    intro alpha
    unfold boundary_residual solve_shooting
    rw [gridQ_one]
    norm_num
  have hs : ¬ 0 < boundary_residual (fun _ _ y0 _ t => (1 + t, y0.2)) (fun _ => 0)
      (gridQ 1) (-10) *
      boundary_residual (fun _ _ y0 _ t => (1 + t, y0.2)) (fun _ => 0) (gridQ 1) 10 := by
    rw [hb, hb]
    norm_num
  obtain ⟨_, h2, h3, h4, h5⟩ := C10_alignment (fun _ _ y0 _ t => (1 + t, y0.2))
    (fun _ _ _ => 0) (fun _ _ _ => ⟨(0, 0, 0), true⟩) (fun _ => 0) 1 hs
  exact ⟨h2, h3, h4, h5⟩

theorem ofFn_head? {n : ℕ} (hn : 0 < n) (f : Fin n → ℚ) :
    (List.ofFn f).head? = some (f ⟨0, hn⟩) := by
  cases n with
  | zero => omega
  | succ m =>
    rw [List.ofFn_succ]
    rfl

theorem ofFn_getLast? {n : ℕ} (hn : 0 < n) (f : Fin n → ℚ) :
    (List.ofFn f).getLast? = some (f ⟨n - 1, by omega⟩) := by
  rw [List.getLast?_eq_getElem?, List.length_ofFn, List.getElem?_ofFn]
  simp [List.ofFnNthVal, Nat.sub_lt hn]

theorem gridQ_tenth_length : (gridQ (1 / 10)).length = 11 := by
  rw [gridQ_tenth, gridQ_unit_length 10 (by norm_num)]

theorem gridQ_tenth_head : (gridQ (1 / 10)).head? = some 0 := by
  rw [gridQ_tenth]
  exact gridQ_unit_head 10 (by norm_num)

theorem gridQ_tenth_last : (gridQ (1 / 10)).getLast? = some 1 := by
  rw [gridQ_tenth]
  exact gridQ_unit_last 10 (by norm_num)

theorem fdN_tenth : fdN (1 / 10) = 11 := gridQ_tenth_length

theorem trial_zero (a b c : ℚ) : trial 0 a b c = 1 := by
  simp [trial]

theorem trial_one_eq (p : ℚ × ℚ × ℚ) : trial 1 p.1 p.2.1 p.2.2 = consFun p + 2 := by
  simp [consFun]

/-- C1: at the default step `h = 0.1`, under the tolerance contracts of
the delegated scipy calls — the integrator samples the exact initial
state at `x = 0` (`solve_ivp` reproduces `y0` at `t0`), brentq returns a
root with `|residual| ≤ 1e-8`, and the constrained minimizer meets the
equality constraint to `1e-4` — each solver returns a vector of exactly
11 entries whose first entry is exactly `1`; the shooting and
finite-difference last entries are within `1e-6` of `2` (the
finite-difference one exactly `2`), and the variational last entry is
within `1e-4` of `2`. -/
theorem C1_solution_vectors (S : IVPSolver) (R : RootFinder) (M : Minimizer) (ex : ℚ → ℚ)
    (hinit : ∀ alpha : ℚ, S (ode_system ex) (0, 1) (1, alpha) shootingTol 0 = (1, alpha))
    (hs : ¬ 0 < boundary_residual S ex (gridQ (1 / 10)) (-10) *
      boundary_residual S ex (gridQ (1 / 10)) 10)
    (hroot : |boundary_residual S ex (gridQ (1 / 10))
        (R (boundary_residual S ex (gridQ (1 / 10))) (-10) 10)| ≤ 1 / 10 ^ 8)
    (hcons : |consFun (M (residual_squared ex (gridQ (1 / 10))) (0, 0, 0) consFun).x|
        ≤ 1 / 10 ^ 4) :
    (∃ ys, shooting_method S R ex (1 / 10) = Except.ok (gridQ (1 / 10), ys) ∧
      ys.length = 11 ∧ ys.head? = some 1 ∧
      ∃ yl, ys.getLast? = some yl ∧ |yl - 2| ≤ 1 / 10 ^ 6) ∧
    ((finite_difference_method ex (1 / 10)).2.length = 11 ∧
      (finite_difference_method ex (1 / 10)).2.head? = some 1 ∧
      (finite_difference_method ex (1 / 10)).2.getLast? = some 2) ∧
    ((variational_method M ex (1 / 10)).2.length = 11 ∧
      (variational_method M ex (1 / 10)).2.head? = some 1 ∧
      ∃ yv, (variational_method M ex (1 / 10)).2.getLast? = some yv ∧
        |yv - 2| ≤ 1 / 10 ^ 4) := by
  have hNpos : 0 < fdN (1 / 10) := by
    rw [fdN_tenth]
    norm_num
  refine ⟨?_, ⟨?_, ?_, ?_⟩, ?_, ?_, ?_⟩
  · -- shooting
    set alpha := R (boundary_residual S ex (gridQ (1 / 10))) (-10) 10 with halpha
    set g := S (ode_system ex) (0, 1) (1, alpha) shootingTol with hg
    refine ⟨((gridQ (1 / 10)).map g).map Prod.fst, ?_, ?_, ?_, ?_⟩
    · unfold shooting_method
      rw [if_neg hs]
      rfl
    · rw [List.length_map, List.length_map, gridQ_tenth_length]
    · have h0 : g 0 = (1, alpha) := hinit alpha
      rw [List.head?_map, List.head?_map, gridQ_tenth_head]
      simp [h0]
    · rw [List.getLast?_map, List.getLast?_map, gridQ_tenth_last]
      refine ⟨(g 1).1, rfl, ?_⟩
      have hb1 : boundary_residual S ex (gridQ (1 / 10)) alpha = (g 1).1 - 2 := by
        rw [gridQ_tenth]
        exact boundary_residual_at_one S ex 10 (by norm_num) alpha
      rw [hb1] at hroot
      calc |(g 1).1 - 2| ≤ 1 / 10 ^ 8 := hroot
        _ ≤ 1 / 10 ^ 6 := by norm_num
  · show (List.ofFn (fdY (1 / 10) ex)).length = 11
    rw [List.length_ofFn, fdN_tenth]
  · show (List.ofFn (fdY (1 / 10) ex)).head? = some 1
    rw [ofFn_head? hNpos]
    exact congrArg some (fdY_first (1 / 10) ex (by norm_num) (by norm_num) _ rfl)
  · show (List.ofFn (fdY (1 / 10) ex)).getLast? = some 2
    rw [ofFn_getLast? hNpos]
    exact congrArg some (fdY_last (1 / 10) ex (by norm_num) (by norm_num) _ rfl)
  · show ((gridQ (1 / 10)).map _).length = 11
    rw [List.length_map, gridQ_tenth_length]
  · show ((gridQ (1 / 10)).map _).head? = some 1
    rw [List.head?_map, gridQ_tenth_head]
    exact congrArg some (trial_zero _ _ _)
  · set p := M (residual_squared ex (gridQ (1 / 10))) (0, 0, 0) consFun with hp
    show ∃ yv, ((gridQ (1 / 10)).map
        (fun t => trial t p.x.1 p.x.2.1 p.x.2.2)).getLast? = some yv ∧
      |yv - 2| ≤ 1 / 10 ^ 4
    rw [List.getLast?_map, gridQ_tenth_last]
    refine ⟨trial 1 p.x.1 p.x.2.1 p.x.2.2, rfl, ?_⟩
    rw [trial_one_eq]
    simpa using hcons

/-- C1 witness: the theorem applied to a concrete integrator
(`t ↦ (1 + t, alpha)`, which meets the initial-condition and residual
contracts exactly) and the minimizer returning `(1, 0, 0)` (which meets
the constraint exactly: `1 + 1 + 0 + 0 = 2`). -/
theorem C1_solution_vectors_witness :
    ((finite_difference_method (fun _ => 0) (1 / 10)).2.length = 11 ∧
      (finite_difference_method (fun _ => 0) (1 / 10)).2.head? = some 1 ∧
      (finite_difference_method (fun _ => 0) (1 / 10)).2.getLast? = some 2) ∧
    (variational_method (fun _ _ _ => ⟨(1, 0, 0), true⟩) (fun _ => 0) (1 / 10)).2.length
      = 11 ∧
    (∃ ys, shooting_method (fun _ _ y0 _ t => (1 + t, y0.2)) (fun _ _ _ => 0) (fun _ => 0)
        (1 / 10) = Except.ok (gridQ (1 / 10), ys) ∧
      ys.length = 11 ∧ ys.head? = some 1 ∧
      ∃ yl, ys.getLast? = some yl ∧ |yl - 2| ≤ 1 / 10 ^ 6) := by
  have hb : ∀ alpha : ℚ,
      boundary_residual (fun _ _ y0 _ t => (1 + t, y0.2)) (fun _ => 0) (gridQ (1 / 10))
        alpha = 0 := by
    intro alpha
    rw [gridQ_tenth,
      boundary_residual_at_one (fun _ _ y0 _ t => (1 + t, y0.2)) (fun _ => 0) 10
        (by norm_num) alpha]
    norm_num
  have hinit : ∀ alpha : ℚ,
      (fun _ _ y0 _ t => (1 + t, y0.2) : IVPSolver) (ode_system (fun _ => 0)) (0, 1)
        (1, alpha) shootingTol 0 = (1, alpha) := by
    intro alpha
    norm_num
  have hs : ¬ 0 < boundary_residual (fun _ _ y0 _ t => (1 + t, y0.2)) (fun _ => 0)
      (gridQ (1 / 10)) (-10) *
      boundary_residual (fun _ _ y0 _ t => (1 + t, y0.2)) (fun _ => 0)
      (gridQ (1 / 10)) 10 := by
    rw [hb, hb]
    norm_num
  have hroot : |boundary_residual (fun _ _ y0 _ t => (1 + t, y0.2)) (fun _ => 0)
      (gridQ (1 / 10))
      ((fun _ _ _ => (0 : ℚ))
        (boundary_residual (fun _ _ y0 _ t => (1 + t, y0.2)) (fun _ => 0)
          (gridQ (1 / 10))) (-10) 10)| ≤ 1 / 10 ^ 8 := by
    rw [hb]
    norm_num
  have hcons : |consFun ((fun _ _ _ => ⟨(1, 0, 0), true⟩ : Minimizer)
      (residual_squared (fun _ => 0) (gridQ (1 / 10))) (0, 0, 0) consFun).x|
      ≤ 1 / 10 ^ 4 := by
    norm_num [consFun, trial]
  obtain ⟨hsh, hfd, hvar⟩ := C1_solution_vectors (fun _ _ y0 _ t => (1 + t, y0.2))
    (fun _ _ _ => 0) (fun _ _ _ => ⟨(1, 0, 0), true⟩) (fun _ => 0) hinit hs hroot hcons
  exact ⟨hfd, hvar.1, hsh⟩

end HW11
